import Mathlib

/-!
Shallow embedding of the Borsh schema subsystem (`borsh/src/schema.rs`).

The Rust source defines a `BorshSchema` trait with two operations per type:
`declaration()` (a canonical name string) and `add_definitions_recursively`
(a DFS that populates a map from `Declaration` to `Definition`), plus the
helper `add_definition` that inserts one entry into the map, asserting that
a pre-existing entry under the same key is structurally equal.

We embed the concrete impls of the trait as an inductive `SchemaType` whose
constructors correspond one-to-one to the `impl BorshSchema for ...` blocks
(the tuple macro `impl_tuple!`, instantiated in the source at arities 1..21,
is embedded once with a list of element types).  The `Rust HashMap` that
carries definitions is embedded as an association list with unique keys;
a failed `assert_eq!` (Rust panic) is embedded as `Option.none`.
-/

namespace Borsh

/-- `Declaration` from schema.rs: the canonical type-name string. -/
abbrev Declaration := String

/-- `VariantName` from schema.rs. -/
abbrev VariantName := String

/-- `FieldName` from schema.rs. -/
abbrev FieldName := String

/-- `Fields` enum from schema.rs: the field collection of a struct. -/
inductive Fields where
  | namedFields : List (FieldName × Declaration) → Fields
  | unnamedFields : List Declaration → Fields
  | empty : Fields
deriving DecidableEq, Repr

/-- `Definition` enum from schema.rs.  The Rust `length` field is a `u32`
obtained by the cast `N as u32`; we store the cast's wrapped value as a
`Nat` (the caller wraps with `% 2^32`). -/
inductive Definition where
  | array : Nat → Declaration → Definition
  | sequence : Declaration → Definition
  | tuple : List Declaration → Definition
  | enum : List (VariantName × Declaration) → Definition
  | struct : Fields → Definition
deriving DecidableEq, Repr

/-- The types given an `impl BorshSchema` in schema.rs, one constructor per
impl block: the primitives of `impl_for_primitives!`, the renamed primitives
(`String`/`str` as `string`, `isize` as `i64`, `usize` as `u64`), `()`,
`Box<T>`, `PhantomData<T>`, `[T; N]`, `Option<T>`, `Result<T, E>`, `Vec<T>`,
`[T]`, `HashMap<K, V>`, `HashSet<T>`, `BTreeMap<K, V>`, `BTreeSet<T>`, and
the tuples of `impl_tuple!` (arities 1..21 in the source) as one
list-carrying constructor. -/
inductive SchemaType where
  | unit : SchemaType
  | bool : SchemaType
  | f32 : SchemaType
  | f64 : SchemaType
  | i8 : SchemaType
  | i16 : SchemaType
  | i32 : SchemaType
  | i64 : SchemaType
  | i128 : SchemaType
  | u8 : SchemaType
  | u16 : SchemaType
  | u32 : SchemaType
  | u64 : SchemaType
  | u128 : SchemaType
  | string : SchemaType
  | str : SchemaType
  | isize : SchemaType
  | usize : SchemaType
  | box : SchemaType → SchemaType
  | phantomData : SchemaType → SchemaType
  | array : Nat → SchemaType → SchemaType
  | option : SchemaType → SchemaType
  | result : SchemaType → SchemaType → SchemaType
  | vec : SchemaType → SchemaType
  | slice : SchemaType → SchemaType
  | hashMap : SchemaType → SchemaType → SchemaType
  | hashSet : SchemaType → SchemaType
  | btreeMap : SchemaType → SchemaType → SchemaType
  | btreeSet : SchemaType → SchemaType
  | tuple : List SchemaType → SchemaType

mutual

/-- `declaration()` of each impl in schema.rs.  Primitives return their
fixed names; composites embed their constituents' declarations exactly as
the `format!` strings in the source; `Box<T>` delegates to `T`;
`PhantomData<T>` returns `<()>::declaration()`, which is the unit impl's
literal `"nil"` (inlined here). -/
def declaration : SchemaType → Declaration
  | .unit => "nil"
  | .bool => "bool"
  | .f32 => "f32"
  | .f64 => "f64"
  | .i8 => "i8"
  | .i16 => "i16"
  | .i32 => "i32"
  | .i64 => "i64"
  | .i128 => "i128"
  | .u8 => "u8"
  | .u16 => "u16"
  | .u32 => "u32"
  | .u64 => "u64"
  | .u128 => "u128"
  | .string => "string"
  | .str => "string"
  | .isize => "i64"
  | .usize => "u64"
  | .box t => declaration t
  | .phantomData _ => "nil"
  | .array n t => "Array<" ++ declaration t ++ ", " ++ toString n ++ ">"
  | .option t => "Option<" ++ declaration t ++ ">"
  | .result t e => "Result<" ++ declaration t ++ ", " ++ declaration e ++ ">"
  | .vec t => "Vec<" ++ declaration t ++ ">"
  | .slice t => "Vec<" ++ declaration t ++ ">"
  | .hashMap k v => "HashMap<" ++ declaration k ++ ", " ++ declaration v ++ ">"
  | .hashSet t => "HashSet<" ++ declaration t ++ ">"
  | .btreeMap k v => "BTreeMap<" ++ declaration k ++ ", " ++ declaration v ++ ">"
  | .btreeSet t => "BTreeSet<" ++ declaration t ++ ">"
  | .tuple ts => "Tuple<" ++ String.intercalate ", " (declarationList ts) ++ ">"
termination_by t => sizeOf t

/-- The `vec![$($name::declaration()),+]` of the tuple impl. -/
def declarationList : List SchemaType → List Declaration
  | [] => []
  | t :: ts => declaration t :: declarationList ts
termination_by ts => sizeOf ts

end

/-- The definition map: Rust's `HashMap<Declaration, Definition>`, embedded
as an association list whose keys stay unique (insertion happens only on a
vacant key, mirroring the `Entry` API). -/
abbrev DefMap := List (Declaration × Definition)

/-- Key lookup in the definition map (`definitions.entry(declaration)`
discrimination between `Occupied` and `Vacant`). -/
def findDef : DefMap → Declaration → Option Definition
  | [], _ => none
  | (k, v) :: rest, key => if k = key then some v else findDef rest key

/-- `BorshSchema::add_definition` from schema.rs: on an occupied entry,
`assert_eq!` the stored definition against the new one — a failed assert
is a Rust panic, embedded as `none`; on a vacant entry, insert. -/
def addDefinition (decl : Declaration) (defn : Definition) (m : DefMap) :
    Option DefMap :=
  match findDef m decl with
  | some existing => if existing = defn then some m else none
  | none => some ((decl, defn) :: m)

/-- The per-impl `Definition` value computed by `add_definitions_recursively`
before it calls `add_definition` (the local `definition` variable in each
impl); `none` for the impls that add nothing (primitives, `()`,
`PhantomData<T>`) and for `Box<T>`, which only delegates.  The array length
is the Rust cast `N as u32`, i.e. the value modulo `2 ^ 32`. -/
def ownDefinition : SchemaType → Option Definition
  | .box _ => none
  | .phantomData _ => none
  | .array n t => some (.array (n % 4294967296) (declaration t))
  | .option t =>
      some (.enum [("None", declaration .unit), ("Some", declaration t)])
  | .result t e =>
      some (.enum [("Ok", declaration t), ("Err", declaration e)])
  | .vec t => some (.sequence (declaration t))
  | .slice t => some (.sequence (declaration t))
  | .hashMap k v => some (.sequence (declaration (.tuple [k, v])))
  | .hashSet t => some (.sequence (declaration t))
  | .btreeMap k v => some (.sequence (declaration (.tuple [k, v])))
  | .btreeSet t => some (.sequence (declaration t))
  | .tuple ts => some (.tuple (declarationList ts))
  | _ => none

mutual

/-- A termination measure for the DFS: strictly larger than the measure of
everything `add_definitions_recursively` recurses into (in particular the
map impls recurse into the synthesized pair tuple `(K, V)`). -/
def weight : SchemaType → Nat
  | .box t => weight t + 1
  | .phantomData _ => 1
  | .array _ t => weight t + 1
  | .option t => weight t + 1
  | .result t e => weight t + weight e + 1
  | .vec t => weight t + 1
  | .slice t => weight t + 1
  | .hashMap k v => weight k + weight v + 10
  | .hashSet t => weight t + 1
  | .btreeMap k v => weight k + weight v + 10
  | .btreeSet t => weight t + 1
  | .tuple ts => weightList ts + 1
  | _ => 1

def weightList : List SchemaType → Nat
  | [] => 0
  | t :: ts => weight t + weightList ts + 1

end

mutual

/-- `add_definitions_recursively` of each impl in schema.rs.  Each case
mirrors its impl block: compute the `Definition`, call `add_definition`,
then recurse into the constituents that the impl recurses into — `Box<T>`
delegates wholesale; `Option<T>` recurses into `T` only; `Result<T, E>`
recurses into `T` only (the source has no `E::add_definitions_recursively`
call); the map impls recurse into the pair tuple `<(K, V)>`; the primitives,
`()` and `PhantomData<T>` do nothing.  A Rust panic inside `add_definition`
is propagated as `none`. -/
def addDefinitionsRecursively : SchemaType → DefMap → Option DefMap
  | .box t, m => addDefinitionsRecursively t m
  | .array n t, m =>
      match addDefinition (declaration (.array n t))
          (.array (n % 4294967296) (declaration t)) m with
      | none => none
      | some m1 => addDefinitionsRecursively t m1
  | .option t, m =>
      match addDefinition (declaration (.option t))
          (.enum [("None", declaration .unit), ("Some", declaration t)]) m with
      | none => none
      | some m1 => addDefinitionsRecursively t m1
  | .result t e, m =>
      match addDefinition (declaration (.result t e))
          (.enum [("Ok", declaration t), ("Err", declaration e)]) m with
      | none => none
      | some m1 => addDefinitionsRecursively t m1
  | .vec t, m =>
      match addDefinition (declaration (.vec t))
          (.sequence (declaration t)) m with
      | none => none
      | some m1 => addDefinitionsRecursively t m1
  | .slice t, m =>
      match addDefinition (declaration (.slice t))
          (.sequence (declaration t)) m with
      | none => none
      | some m1 => addDefinitionsRecursively t m1
  | .hashMap k v, m =>
      match addDefinition (declaration (.hashMap k v))
          (.sequence (declaration (.tuple [k, v]))) m with
      | none => none
      | some m1 => addDefinitionsRecursively (.tuple [k, v]) m1
  | .hashSet t, m =>
      match addDefinition (declaration (.hashSet t))
          (.sequence (declaration t)) m with
      | none => none
      | some m1 => addDefinitionsRecursively t m1
  | .btreeMap k v, m =>
      match addDefinition (declaration (.btreeMap k v))
          (.sequence (declaration (.tuple [k, v]))) m with
      | none => none
      | some m1 => addDefinitionsRecursively (.tuple [k, v]) m1
  | .btreeSet t, m =>
      match addDefinition (declaration (.btreeSet t))
          (.sequence (declaration t)) m with
      | none => none
      | some m1 => addDefinitionsRecursively t m1
  | .tuple ts, m =>
      match addDefinition (declaration (.tuple ts))
          (.tuple (declarationList ts)) m with
      | none => none
      | some m1 => addDefinitionsRecursivelyList ts m1
  | _, m => some m
termination_by t _m => 2 * weight t
decreasing_by
  all_goals simp_wf
  all_goals simp [weight, weightList]
  all_goals omega

/-- The `$($name::add_definitions_recursively(definitions);)+` sequence of
the tuple impl: recurse into each element in order. -/
def addDefinitionsRecursivelyList : List SchemaType → DefMap → Option DefMap
  | [], m => some m
  | t :: ts, m =>
      match addDefinitionsRecursively t m with
      | none => none
      | some m1 => addDefinitionsRecursivelyList ts m1
termination_by l _m => 2 * weightList l + 1
decreasing_by
  all_goals simp_wf
  all_goals simp [weight, weightList]
  all_goals omega

end

/-- `BorshSchemaContainer` from schema.rs. -/
structure BorshSchemaContainer where
  declaration : Declaration
  definitions : DefMap
deriving DecidableEq, Repr

/-- `BorshSchema::schema_container` from schema.rs: run the DFS from an
empty map; a panic during collection propagates as `none`. -/
def schemaContainer (t : SchemaType) : Option BorshSchemaContainer :=
  match addDefinitionsRecursively t [] with
  | none => none
  | some defs => some ⟨declaration t, defs⟩

/-- A successful `add_definition` call keeps every pre-existing binding. -/
theorem addDefinition_preserve {d : Declaration} {defn : Definition}
    {m m' : DefMap} (h : addDefinition d defn m = some m')
    {k : Declaration} {v : Definition} (hk : findDef m k = some v) :
    findDef m' k = some v := by
  cases hfind : findDef m d with
  | some existing =>
      simp only [addDefinition, hfind] at h
      by_cases he : existing = defn
      · rw [if_pos he] at h; cases h; exact hk
      · rw [if_neg he] at h; cases h
  | none =>
      simp only [addDefinition, hfind] at h
      cases h
      by_cases hdk : d = k
      · subst hdk; rw [hfind] at hk; cases hk
      · simp [findDef, hdk, hk]

/-- After a successful `add_definition` call the key holds the given
definition. -/
theorem addDefinition_mem {d : Declaration} {defn : Definition}
    {m m' : DefMap} (h : addDefinition d defn m = some m') :
    findDef m' d = some defn := by
  cases hfind : findDef m d with
  | some existing =>
      simp only [addDefinition, hfind] at h
      by_cases he : existing = defn
      · rw [if_pos he] at h; cases h; rw [hfind, he]
      · rw [if_neg he] at h; cases h
  | none =>
      simp only [addDefinition, hfind] at h
      cases h
      simp [findDef]

/-- `add_definition` succeeds without change when the key already holds the
given definition. -/
theorem addDefinition_of_found {d : Declaration} {defn : Definition}
    {m : DefMap} (hf : findDef m d = some defn) :
    addDefinition d defn m = some m := by
  simp [addDefinition, hf]

mutual

/-- A successful DFS keeps every pre-existing binding of the map intact:
entries are only inserted or confirmed equal, never removed or changed. -/
theorem addDefs_preserve (t : SchemaType) (m m' : DefMap)
    (h : addDefinitionsRecursively t m = some m')
    (k : Declaration) (v : Definition) (hk : findDef m k = some v) :
    findDef m' k = some v := by
  cases t
  case box t =>
    simp only [addDefinitionsRecursively] at h
    exact addDefs_preserve t m m' h k v hk
  case array n t =>
    cases hd : addDefinition (declaration (.array n t))
        (.array (n % 4294967296) (declaration t)) m with
    | none => simp [addDefinitionsRecursively, hd] at h
    | some m1 =>
        simp only [addDefinitionsRecursively, hd] at h
        exact addDefs_preserve t m1 m' h k v (addDefinition_preserve hd hk)
  case option t =>
    cases hd : addDefinition (declaration (.option t))
        (.enum [("None", declaration .unit), ("Some", declaration t)]) m with
    | none => simp [addDefinitionsRecursively, hd] at h
    | some m1 =>
        simp only [addDefinitionsRecursively, hd] at h
        exact addDefs_preserve t m1 m' h k v (addDefinition_preserve hd hk)
  case result t e =>
    cases hd : addDefinition (declaration (.result t e))
        (.enum [("Ok", declaration t), ("Err", declaration e)]) m with
    | none => simp [addDefinitionsRecursively, hd] at h
    | some m1 =>
        simp only [addDefinitionsRecursively, hd] at h
        exact addDefs_preserve t m1 m' h k v (addDefinition_preserve hd hk)
  case vec t =>
    cases hd : addDefinition (declaration (.vec t))
        (.sequence (declaration t)) m with
    | none => simp [addDefinitionsRecursively, hd] at h
    | some m1 =>
        simp only [addDefinitionsRecursively, hd] at h
        exact addDefs_preserve t m1 m' h k v (addDefinition_preserve hd hk)
  case slice t =>
    cases hd : addDefinition (declaration (.slice t))
        (.sequence (declaration t)) m with
    | none => simp [addDefinitionsRecursively, hd] at h
    | some m1 =>
        simp only [addDefinitionsRecursively, hd] at h
        exact addDefs_preserve t m1 m' h k v (addDefinition_preserve hd hk)
  case hashMap tk tv =>
    cases hd : addDefinition (declaration (.hashMap tk tv))
        (.sequence (declaration (.tuple [tk, tv]))) m with
    | none => simp [addDefinitionsRecursively, hd] at h
    | some m1 =>
        simp only [addDefinitionsRecursively, hd] at h
        cases hd2 : addDefinition (declaration (.tuple [tk, tv]))
            (.tuple (declarationList [tk, tv])) m1 with
        | none => simp [hd2] at h
        | some m2 =>
            simp only [hd2] at h
            exact addDefsList_preserve [tk, tv] m2 m' h k v
              (addDefinition_preserve hd2 (addDefinition_preserve hd hk))
  case hashSet t =>
    cases hd : addDefinition (declaration (.hashSet t))
        (.sequence (declaration t)) m with
    | none => simp [addDefinitionsRecursively, hd] at h
    | some m1 =>
        simp only [addDefinitionsRecursively, hd] at h
        exact addDefs_preserve t m1 m' h k v (addDefinition_preserve hd hk)
  case btreeMap tk tv =>
    cases hd : addDefinition (declaration (.btreeMap tk tv))
        (.sequence (declaration (.tuple [tk, tv]))) m with
    | none => simp [addDefinitionsRecursively, hd] at h
    | some m1 =>
        simp only [addDefinitionsRecursively, hd] at h
        cases hd2 : addDefinition (declaration (.tuple [tk, tv]))
            (.tuple (declarationList [tk, tv])) m1 with
        | none => simp [hd2] at h
        | some m2 =>
            simp only [hd2] at h
            exact addDefsList_preserve [tk, tv] m2 m' h k v
              (addDefinition_preserve hd2 (addDefinition_preserve hd hk))
  case btreeSet t =>
    cases hd : addDefinition (declaration (.btreeSet t))
        (.sequence (declaration t)) m with
    | none => simp [addDefinitionsRecursively, hd] at h
    | some m1 =>
        simp only [addDefinitionsRecursively, hd] at h
        exact addDefs_preserve t m1 m' h k v (addDefinition_preserve hd hk)
  case tuple ts =>
    cases hd : addDefinition (declaration (.tuple ts))
        (.tuple (declarationList ts)) m with
    | none => simp [addDefinitionsRecursively, hd] at h
    | some m1 =>
        simp only [addDefinitionsRecursively, hd] at h
        exact addDefsList_preserve ts m1 m' h k v (addDefinition_preserve hd hk)
  all_goals
    simp only [addDefinitionsRecursively, Option.some.injEq] at h
    subst h
    exact hk
termination_by 2 * weight t
decreasing_by
  all_goals simp_wf
  all_goals subst_vars
  all_goals (try simp only [weight, weightList])
  all_goals omega

/-- List version of `addDefs_preserve` for the tuple elements. -/
theorem addDefsList_preserve (l : List SchemaType) (m m' : DefMap)
    (h : addDefinitionsRecursivelyList l m = some m')
    (k : Declaration) (v : Definition) (hk : findDef m k = some v) :
    findDef m' k = some v := by
  cases l with
  | nil =>
      simp only [addDefinitionsRecursivelyList, Option.some.injEq] at h
      subst h
      exact hk
  | cons t ts =>
      cases hd : addDefinitionsRecursively t m with
      | none => simp [addDefinitionsRecursivelyList, hd] at h
      | some m1 =>
          simp only [addDefinitionsRecursivelyList, hd] at h
          exact addDefsList_preserve ts m1 m' h k v
            (addDefs_preserve t m m1 hd k v hk)
termination_by 2 * weightList l + 1
decreasing_by
  all_goals simp_wf
  all_goals subst_vars
  all_goals (try simp only [weight, weightList])
  all_goals omega

end

mutual

/-- Absorption: a map extending the successful result of a DFS for `t` is a
fixed point of that DFS — re-running `add_definitions_recursively` on it
succeeds and changes nothing. -/
theorem addDefs_absorb (t : SchemaType) (m m1 m2 : DefMap)
    (h : addDefinitionsRecursively t m = some m1)
    (hsub : ∀ k v, findDef m1 k = some v → findDef m2 k = some v) :
    addDefinitionsRecursively t m2 = some m2 := by
  cases t
  case box t =>
    simp only [addDefinitionsRecursively] at h ⊢
    exact addDefs_absorb t m m1 m2 h hsub
  case array n t =>
    cases hd : addDefinition (declaration (.array n t))
        (.array (n % 4294967296) (declaration t)) m with
    | none => simp [addDefinitionsRecursively, hd] at h
    | some ma =>
        simp only [addDefinitionsRecursively, hd] at h
        have hf : findDef m2 (declaration (.array n t)) =
            some (.array (n % 4294967296) (declaration t)) :=
          hsub _ _ (addDefs_preserve t ma m1 h _ _ (addDefinition_mem hd))
        simp only [addDefinitionsRecursively, addDefinition_of_found hf]
        exact addDefs_absorb t ma m1 m2 h hsub
  case option t =>
    cases hd : addDefinition (declaration (.option t))
        (.enum [("None", declaration .unit), ("Some", declaration t)]) m with
    | none => simp [addDefinitionsRecursively, hd] at h
    | some ma =>
        simp only [addDefinitionsRecursively, hd] at h
        have hf : findDef m2 (declaration (.option t)) =
            some (.enum [("None", declaration .unit),
              ("Some", declaration t)]) :=
          hsub _ _ (addDefs_preserve t ma m1 h _ _ (addDefinition_mem hd))
        simp only [addDefinitionsRecursively, addDefinition_of_found hf]
        exact addDefs_absorb t ma m1 m2 h hsub
  case result t e =>
    cases hd : addDefinition (declaration (.result t e))
        (.enum [("Ok", declaration t), ("Err", declaration e)]) m with
    | none => simp [addDefinitionsRecursively, hd] at h
    | some ma =>
        simp only [addDefinitionsRecursively, hd] at h
        have hf : findDef m2 (declaration (.result t e)) =
            some (.enum [("Ok", declaration t), ("Err", declaration e)]) :=
          hsub _ _ (addDefs_preserve t ma m1 h _ _ (addDefinition_mem hd))
        simp only [addDefinitionsRecursively, addDefinition_of_found hf]
        exact addDefs_absorb t ma m1 m2 h hsub
  case vec t =>
    cases hd : addDefinition (declaration (.vec t))
        (.sequence (declaration t)) m with
    | none => simp [addDefinitionsRecursively, hd] at h
    | some ma =>
        simp only [addDefinitionsRecursively, hd] at h
        have hf : findDef m2 (declaration (.vec t)) =
            some (.sequence (declaration t)) :=
          hsub _ _ (addDefs_preserve t ma m1 h _ _ (addDefinition_mem hd))
        simp only [addDefinitionsRecursively, addDefinition_of_found hf]
        exact addDefs_absorb t ma m1 m2 h hsub
  case slice t =>
    cases hd : addDefinition (declaration (.slice t))
        (.sequence (declaration t)) m with
    | none => simp [addDefinitionsRecursively, hd] at h
    | some ma =>
        simp only [addDefinitionsRecursively, hd] at h
        have hf : findDef m2 (declaration (.slice t)) =
            some (.sequence (declaration t)) :=
          hsub _ _ (addDefs_preserve t ma m1 h _ _ (addDefinition_mem hd))
        simp only [addDefinitionsRecursively, addDefinition_of_found hf]
        exact addDefs_absorb t ma m1 m2 h hsub
  case hashMap tk tv =>
    cases hd : addDefinition (declaration (.hashMap tk tv))
        (.sequence (declaration (.tuple [tk, tv]))) m with
    | none => simp [addDefinitionsRecursively, hd] at h
    | some ma =>
        simp only [addDefinitionsRecursively, hd] at h
        cases hd2 : addDefinition (declaration (.tuple [tk, tv]))
            (.tuple (declarationList [tk, tv])) ma with
        | none => simp [hd2] at h
        | some mb =>
            simp only [hd2] at h
            have hf : findDef m2 (declaration (.hashMap tk tv)) =
                some (.sequence (declaration (.tuple [tk, tv]))) :=
              hsub _ _ (addDefsList_preserve [tk, tv] mb m1 h _ _
                (addDefinition_preserve hd2 (addDefinition_mem hd)))
            have hf2 : findDef m2 (declaration (.tuple [tk, tv])) =
                some (.tuple (declarationList [tk, tv])) :=
              hsub _ _ (addDefsList_preserve [tk, tv] mb m1 h _ _
                (addDefinition_mem hd2))
            simp only [addDefinitionsRecursively,
              addDefinition_of_found hf, addDefinition_of_found hf2]
            exact addDefsList_absorb [tk, tv] mb m1 m2 h hsub
  case hashSet t =>
    cases hd : addDefinition (declaration (.hashSet t))
        (.sequence (declaration t)) m with
    | none => simp [addDefinitionsRecursively, hd] at h
    | some ma =>
        simp only [addDefinitionsRecursively, hd] at h
        have hf : findDef m2 (declaration (.hashSet t)) =
            some (.sequence (declaration t)) :=
          hsub _ _ (addDefs_preserve t ma m1 h _ _ (addDefinition_mem hd))
        simp only [addDefinitionsRecursively, addDefinition_of_found hf]
        exact addDefs_absorb t ma m1 m2 h hsub
  case btreeMap tk tv =>
    cases hd : addDefinition (declaration (.btreeMap tk tv))
        (.sequence (declaration (.tuple [tk, tv]))) m with
    | none => simp [addDefinitionsRecursively, hd] at h
    | some ma =>
        simp only [addDefinitionsRecursively, hd] at h
        cases hd2 : addDefinition (declaration (.tuple [tk, tv]))
            (.tuple (declarationList [tk, tv])) ma with
        | none => simp [hd2] at h
        | some mb =>
            simp only [hd2] at h
            have hf : findDef m2 (declaration (.btreeMap tk tv)) =
                some (.sequence (declaration (.tuple [tk, tv]))) :=
              hsub _ _ (addDefsList_preserve [tk, tv] mb m1 h _ _
                (addDefinition_preserve hd2 (addDefinition_mem hd)))
            have hf2 : findDef m2 (declaration (.tuple [tk, tv])) =
                some (.tuple (declarationList [tk, tv])) :=
              hsub _ _ (addDefsList_preserve [tk, tv] mb m1 h _ _
                (addDefinition_mem hd2))
            simp only [addDefinitionsRecursively,
              addDefinition_of_found hf, addDefinition_of_found hf2]
            exact addDefsList_absorb [tk, tv] mb m1 m2 h hsub
  case btreeSet t =>
    cases hd : addDefinition (declaration (.btreeSet t))
        (.sequence (declaration t)) m with
    | none => simp [addDefinitionsRecursively, hd] at h
    | some ma =>
        simp only [addDefinitionsRecursively, hd] at h
        have hf : findDef m2 (declaration (.btreeSet t)) =
            some (.sequence (declaration t)) :=
          hsub _ _ (addDefs_preserve t ma m1 h _ _ (addDefinition_mem hd))
        simp only [addDefinitionsRecursively, addDefinition_of_found hf]
        exact addDefs_absorb t ma m1 m2 h hsub
  case tuple ts =>
    cases hd : addDefinition (declaration (.tuple ts))
        (.tuple (declarationList ts)) m with
    | none => simp [addDefinitionsRecursively, hd] at h
    | some ma =>
        simp only [addDefinitionsRecursively, hd] at h
        have hf : findDef m2 (declaration (.tuple ts)) =
            some (.tuple (declarationList ts)) :=
          hsub _ _ (addDefsList_preserve ts ma m1 h _ _
            (addDefinition_mem hd))
        simp only [addDefinitionsRecursively, addDefinition_of_found hf]
        exact addDefsList_absorb ts ma m1 m2 h hsub
  all_goals simp [addDefinitionsRecursively]
termination_by 2 * weight t
decreasing_by
  all_goals simp_wf
  all_goals subst_vars
  all_goals (try simp only [weight, weightList])
  all_goals omega

/-- List version of `addDefs_absorb` for the tuple elements. -/
theorem addDefsList_absorb (l : List SchemaType) (m m1 m2 : DefMap)
    (h : addDefinitionsRecursivelyList l m = some m1)
    (hsub : ∀ k v, findDef m1 k = some v → findDef m2 k = some v) :
    addDefinitionsRecursivelyList l m2 = some m2 := by
  cases l with
  | nil => simp [addDefinitionsRecursivelyList]
  | cons t ts =>
      cases hd : addDefinitionsRecursively t m with
      | none => simp [addDefinitionsRecursivelyList, hd] at h
      | some ma =>
          simp only [addDefinitionsRecursivelyList, hd] at h
          have ht : addDefinitionsRecursively t m2 = some m2 :=
            addDefs_absorb t m ma m2 hd (fun k v hv =>
              hsub k v (addDefsList_preserve ts ma m1 h k v hv))
          simp only [addDefinitionsRecursivelyList, ht]
          exact addDefsList_absorb ts ma m1 m2 h hsub
termination_by 2 * weightList l + 1
decreasing_by
  all_goals simp_wf
  all_goals subst_vars
  all_goals (try simp only [weight, weightList])
  all_goals omega

end

/-- Idempotence of the DFS: re-running `add_definitions_recursively` on its
own successful output changes nothing. -/
theorem addDefs_idem (t : SchemaType) (m m' : DefMap)
    (h : addDefinitionsRecursively t m = some m') :
    addDefinitionsRecursively t m' = some m' :=
  addDefs_absorb t m m' m' h (fun _ _ hv => hv)

/-- Claim C1: schema completeness demands that every declaration reachable
through the `Err` payload of `Result<T, E>` has an entry in the collected
map.  The code fails this: `Result<u64, Vec<u8>>::add_definitions_recursively`
starting from the empty map produces only the root enum entry, whose `Err`
variant references `"Vec<u8>"`, yet the map holds no `"Vec<u8>"` entry —
the `Result` impl never calls `E::add_definitions_recursively`. -/
theorem result_schema_misses_err_definitions :
    addDefinitionsRecursively (.result .u64 (.vec .u8)) [] =
      some [("Result<u64, Vec<u8>>",
        .enum [("Ok", "u64"), ("Err", "Vec<u8>")])] ∧
    findDef [("Result<u64, Vec<u8>>",
        .enum [("Ok", "u64"), ("Err", "Vec<u8>")])] "Vec<u8>" = none := by
  constructor
  · simp [addDefinitionsRecursively, addDefinition, declaration, findDef]
  · simp [findDef]

/-- Claim C2: `add_definition` fails fatally when the map holds a
structurally different definition under the same declaration, succeeds and
leaves the map unchanged when the stored definition is equal (so repeating
an insertion is idempotent), and inserts when the key is absent. -/
theorem add_definition_conflict_spec
    (d : Declaration) (defn existing : Definition) (m : DefMap) :
    (findDef m d = some existing → existing ≠ defn →
      addDefinition d defn m = none) ∧
    (findDef m d = some defn → addDefinition d defn m = some m) ∧
    (findDef m d = none → addDefinition d defn m = some ((d, defn) :: m)) ∧
    (∀ m', addDefinition d defn m = some m' →
      addDefinition d defn m' = some m') := by
  refine ⟨?_, ?_, ?_, ?_⟩
  · intro hf hne; simp [addDefinition, hf, hne]
  · intro hf; simp [addDefinition, hf]
  · intro hf; simp [addDefinition, hf]
  · intro m' h; exact addDefinition_of_found (addDefinition_mem h)

/-- Witness for C2 at concrete inputs: a conflicting redefinition fails, an
equal redefinition leaves the one-entry map unchanged, and insertion into
the empty map adds the entry. -/
theorem add_definition_conflict_spec_witness :
    addDefinition "k" (.sequence "u64") [("k", .sequence "u8")] = none ∧
    addDefinition "k" (.sequence "u8") [("k", .sequence "u8")] =
      some [("k", .sequence "u8")] ∧
    addDefinition "k" (.sequence "u8") [] = some [("k", .sequence "u8")] := by
  refine ⟨?_, ?_, ?_⟩
  · exact (add_definition_conflict_spec "k" (.sequence "u64")
      (.sequence "u8") [("k", .sequence "u8")]).1
      (by simp [findDef]) (by decide)
  · exact (add_definition_conflict_spec "k" (.sequence "u8")
      (.sequence "u8") [("k", .sequence "u8")]).2.1 (by simp [findDef])
  · exact (add_definition_conflict_spec "k" (.sequence "u8")
      (.sequence "u8") []).2.2.1 (by simp [findDef])

/-- Counterexample to claim C3: with the map already holding the declaration
of `Vec<Vec<u64>>` mapped to exactly the definition the impl computes, the
call does not return the map unchanged — it still recurses into `Vec<u64>`
and inserts that constituent's entry. -/
theorem memoized_entry_does_not_stop_recursion :
    findDef [("Vec<Vec<u64>>", .sequence "Vec<u64>")]
        (declaration (.vec (.vec .u64))) =
      some (.sequence (declaration (.vec .u64))) ∧
    addDefinitionsRecursively (.vec (.vec .u64))
        [("Vec<Vec<u64>>", .sequence "Vec<u64>")] ≠
      some [("Vec<Vec<u64>>", .sequence "Vec<u64>")] := by
  constructor
  · simp [declaration, findDef]
  · simp [addDefinitionsRecursively, addDefinition, declaration, findDef]

/-- Claim C3 as amended: finding one's own declaration already mapped to an
equal definition does not stop the recursion — the impls always re-visit
their constituents — but no existing entry is modified, so a map that
already contains the full expansion (any successful output of the same
call) is returned unchanged: the collection is idempotent. -/
theorem collection_idempotent_on_own_result
    (t : SchemaType) (m m' : DefMap)
    (h : addDefinitionsRecursively t m = some m') :
    addDefinitionsRecursively t m' = some m' :=
  addDefs_idem t m m' h

/-- Witness for C3's amended claim: collecting `Vec<u64>` from the empty map
yields the one-entry map, and re-running the collection on that map leaves
it unchanged. -/
theorem collection_idempotent_on_own_result_witness :
    addDefinitionsRecursively (.vec .u64) [("Vec<u64>", .sequence "u64")] =
      some [("Vec<u64>", .sequence "u64")] :=
  collection_idempotent_on_own_result (.vec .u64) []
    [("Vec<u64>", .sequence "u64")]
    (by simp [addDefinitionsRecursively, addDefinition, declaration, findDef])

/-- Counterexample to claim C4: `PhantomData<T>` does not delegate to `T` —
its declaration is `"nil"`, not `T`'s declaration, and it contributes no
definitions while `T` may contribute some. -/
theorem phantom_data_does_not_delegate :
    declaration (.phantomData .string) ≠ declaration .string ∧
    addDefinitionsRecursively (.phantomData (.vec .u8)) [] = some [] ∧
    addDefinitionsRecursively (.vec .u8) [] ≠ some [] := by
  refine ⟨?_, ?_, ?_⟩
  · simp [declaration]
  · simp [addDefinitionsRecursively]
  · simp [addDefinitionsRecursively, addDefinition, declaration, findDef]

/-- Claim C4 as amended: `Box<T>` delegates both `declaration` and
`add_definitions_recursively` verbatim to `T`; `PhantomData<T>` does not
delegate — it declares as the unit declaration `"nil"` and contributes no
definitions at all. -/
theorem box_delegates_phantom_data_is_unit (t : SchemaType) (m : DefMap) :
    declaration (.box t) = declaration t ∧
    addDefinitionsRecursively (.box t) m = addDefinitionsRecursively t m ∧
    declaration (.phantomData t) = "nil" ∧
    addDefinitionsRecursively (.phantomData t) m = some m := by
  refine ⟨?_, ?_, ?_, ?_⟩ <;> simp [declaration, addDefinitionsRecursively]

/-- Counterexample to claim C5: structural identity does not force textually
identical declarations.  `u8` and `u16` compute no `Definition` at all and
contribute equal (empty) definition maps, yet declare differently; likewise
`HashSet<u64>` and `BTreeSet<u64>` compute structurally equal `Sequence`
definitions yet declare differently. -/
theorem structurally_identical_types_distinct_declarations :
    ownDefinition .u8 = ownDefinition .u16 ∧
    addDefinitionsRecursively .u8 [] = addDefinitionsRecursively .u16 [] ∧
    declaration .u8 ≠ declaration .u16 ∧
    ownDefinition (.hashSet .u64) = ownDefinition (.btreeSet .u64) ∧
    declaration (.hashSet .u64) ≠ declaration (.btreeSet .u64) := by
  refine ⟨?_, ?_, ?_, ?_, ?_⟩
  · simp [ownDefinition]
  · simp [addDefinitionsRecursively]
  · simp [declaration]
  · simp [ownDefinition, declaration]
  · simp [declaration]

/-- Claim C5 as amended: textually identical declarations for structurally
identical types are guaranteed only for the ownership-variant pairs the
code deduplicates — `[T]` with `Vec<T>` (same declaration, same computed
definition, same map contribution), `str` with `String`, and `Box<T>` with
`T`; in general structurally identical types (primitives, whose structure
lives in their name, or `HashSet`/`BTreeSet` and `HashMap`/`BTreeMap`)
declare under distinct names. -/
theorem ownership_variants_share_declaration (t : SchemaType) (m : DefMap) :
    declaration (.slice t) = declaration (.vec t) ∧
    ownDefinition (.slice t) = ownDefinition (.vec t) ∧
    addDefinitionsRecursively (.slice t) m =
      addDefinitionsRecursively (.vec t) m ∧
    declaration .str = declaration .string ∧
    addDefinitionsRecursively .str m = addDefinitionsRecursively .string m ∧
    declaration (.box t) = declaration t := by
  refine ⟨?_, ?_, ?_, ?_, ?_, ?_⟩ <;>
    simp [declaration, ownDefinition, addDefinitionsRecursively]

/-- Claim C6: `Option<u64>` declares as exactly `"Option<u64>"` and its
collection from the empty map yields exactly the one-entry map binding
`"Option<u64>"` to the 2-variant enum `None`/`nil`, `Some`/`u64`. -/
theorem option_u64_schema :
    declaration (.option .u64) = "Option<u64>" ∧
    addDefinitionsRecursively (.option .u64) [] =
      some [("Option<u64>", .enum [("None", "nil"), ("Some", "u64")])] := by
  constructor
  · simp [declaration]
  · simp [addDefinitionsRecursively, addDefinition, declaration, findDef]

/-- Claim C7: the unsized slice `[T]` and the owned `Vec<T>` produce the
same declaration `"Vec<" ++ T::declaration() ++ ">"`, the same `Sequence`
definition and the same definition-map contribution; `str` and `String`
both declare as `"string"` and contribute no definitions. -/
theorem unsized_views_match_owned (t : SchemaType) (m : DefMap) :
    declaration (.slice t) = "Vec<" ++ declaration t ++ ">" ∧
    declaration (.vec t) = "Vec<" ++ declaration t ++ ">" ∧
    ownDefinition (.slice t) = some (.sequence (declaration t)) ∧
    ownDefinition (.vec t) = some (.sequence (declaration t)) ∧
    addDefinitionsRecursively (.slice t) m =
      addDefinitionsRecursively (.vec t) m ∧
    declaration .str = "string" ∧
    declaration .string = "string" ∧
    addDefinitionsRecursively .str m = some m ∧
    addDefinitionsRecursively .string m = some m := by
  refine ⟨?_, ?_, ?_, ?_, ?_, ?_, ?_, ?_, ?_⟩ <;>
    simp [declaration, ownDefinition, addDefinitionsRecursively]

/-- Claim C8: a successful `add_definitions_recursively` call never removes
or modifies an existing entry — every binding present before the call is
present afterwards with the same definition. -/
theorem add_definitions_recursively_monotonic
    (t : SchemaType) (m m' : DefMap)
    (h : addDefinitionsRecursively t m = some m')
    (k : Declaration) (v : Definition) (hk : findDef m k = some v) :
    findDef m' k = some v :=
  addDefs_preserve t m m' h k v hk

/-- Witness for C8: collecting `Vec<u64>` over a map holding an unrelated
binding keeps that binding intact. -/
theorem add_definitions_recursively_monotonic_witness :
    findDef [("Vec<u64>", .sequence "u64"), ("x", .sequence "bool")] "x" =
      some (.sequence "bool") :=
  add_definitions_recursively_monotonic (.vec .u64)
    [("x", .sequence "bool")]
    [("Vec<u64>", .sequence "u64"), ("x", .sequence "bool")]
    (by simp [addDefinitionsRecursively, addDefinition, declaration, findDef])
    "x" (.sequence "bool") (by simp [findDef])

/-- Claim C9: the length stored in a fixed array's `Definition::Array` is
the const parameter `N` cast to `u32`, i.e. `N mod 2^32`: exact for every
`N < 2^32`, silently wrapping (no failure) for larger `N` — e.g.
`N = 2^32 + 5` stores length `5` while the declaration text keeps the full
`N`. -/
theorem array_length_cast_u32 (n : Nat) (t : SchemaType) :
    ownDefinition (.array n t) =
      some (.array (n % 4294967296) (declaration t)) ∧
    (n < 4294967296 →
      ownDefinition (.array n t) = some (.array n (declaration t))) ∧
    addDefinitionsRecursively (.array n .u64) [] =
      some [(declaration (.array n .u64), .array (n % 4294967296) "u64")] ∧
    addDefinitionsRecursively (.array 4294967301 .u64) [] =
      some [("Array<u64, 4294967301>", .array 5 "u64")] := by
  refine ⟨?_, ?_, ?_, ?_⟩
  · simp [ownDefinition]
  · intro hlt; simp [ownDefinition, Nat.mod_eq_of_lt hlt]
  · simp [addDefinitionsRecursively, addDefinition, declaration, findDef]
  · simp [addDefinitionsRecursively, addDefinition, declaration, findDef]
    decide

/-- Witness for C9 at `N = 32`: below `2^32` the stored length is exactly
`N`. -/
theorem array_length_cast_u32_witness :
    ownDefinition (.array 32 .u64) = some (.array 32 (declaration .u64)) :=
  (array_length_cast_u32 32 .u64).2.1 (by decide)

/-- Claim C10: `usize` declares as `"u64"` and `isize` as `"i64"` — fixed
names independent of any platform width (the embedding, like the source,
has no platform dependence) — and both contribute no definitions. -/
theorem usize_isize_declare_fixed_width (m : DefMap) :
    declaration .usize = "u64" ∧
    declaration .isize = "i64" ∧
    addDefinitionsRecursively .usize m = some m ∧
    addDefinitionsRecursively .isize m = some m := by
  refine ⟨?_, ?_, ?_, ?_⟩ <;> simp [declaration, addDefinitionsRecursively]

end Borsh
